import Mathlib

/-!
Shallow embedding of the yfs summary module (src/yfs/summary.py) and proofs of
the specification claims about it.

The repository under verification scrapes yahoo finance summary pages.  The
file src/yfs/summary.py is the authoritative source for everything modelled
here.  Its collaborators (the modules yfs.lookup, yfs.requestor, yfs.quote and
yfs.cleaner) are external to the provided sources and are declared by the
specification to be out of scope; they are modelled as an abstract environment
of deterministic functions (structure Env below).  Machine-level details that
cannot influence any claim (HTTP transport keyword arguments, the progress bar,
the thread count of the worker pool) are omitted; the nondeterministic
completion order of the thread pool is modelled explicitly by permutation
parameters.
-/

namespace Yfs

/-- Boolean lexicographic comparison of strings through their character lists.
Python compares strings lexicographically by code points, which coincides with
the order on the underlying character lists; this Bool-valued version reduces
inside the kernel, unlike the iterator-based decidability instance of the
builtin String order. -/
def strLe (a b : String) : Bool := !(decide (b.data < a.data))

/-- The ordering on values of type α induced by a String key, as used by
Python sorted with a key-comparing dunder lt. -/
def leBy (f : α → String) (a b : α) : Prop := strLe (f a) (f b) = true

instance (f : α → String) : DecidableRel (leBy f) := fun a b =>
  inferInstanceAs (Decidable (_ = true))

instance (f : α → String) : IsTotal α (leBy f) where
  total a b := by
    unfold leBy
    have hiff : ∀ x y : String, strLe x y = true ↔ x ≤ y := by
      intro x y
      simp [strLe, String.le_iff_toList_le, String.toList]
    rcases le_total (f a) (f b) with h | h
    · exact Or.inl ((hiff _ _).mpr h)
    · exact Or.inr ((hiff _ _).mpr h)

instance (f : α → String) : IsTrans α (leBy f) where
  trans a b c hab hbc := by
    unfold leBy at hab hbc ⊢
    have hiff : ∀ x y : String, strLe x y = true ↔ x ≤ y := by
      intro x y
      simp [strLe, String.le_iff_toList_le, String.toList]
    exact (hiff _ _).mpr (le_trans ((hiff _ _).mp hab) ((hiff _ _).mp hbc))

/-- Python sorted is the stable sort with respect to the element order; for a
total preorder the stable sort is computed by insertion sort, which is the
model used here. -/
def pySort (f : α → String) (l : List α) : List α := List.insertionSort (leBy f) l

/-- Helper of pyDedup: keep the elements not seen yet, in first-occurrence
order, accumulating the seen ones.  Structural recursion keeps the function
kernel-reducible. -/
def pyDedupAux (seen : List String) : List String → List String
  | [] => []
  | x :: xs => if x ∈ seen then pyDedupAux seen xs else x :: pyDedupAux (x :: seen) xs

/-- Model of the Python expression list(set(l)): the duplicates of the list
are removed.  CPython enumerates a set in a hash-determined order; only the
set semantics of the result is relied upon by the program, and the model picks
the first-occurrence order. -/
def pyDedup (l : List String) : List String := pyDedupAux [] l

/-- Reordering of a list by a list of indices; together with the hypothesis
that the index list is a permutation of range, this models the completion
order in which concurrent futures are drained by as_completed. -/
def permuteBy (order : List Nat) (l : List α) : List α :=
  order.filterMap (fun i => l[i]?)

/-- Result of the external symbol resolver yfs.lookup.fuzzy_search with
first_ticker set: zero or one object exposing a canonical symbol field. -/
structure ResolvedSymbol where
  symbol : String
deriving DecidableEq, Repr

/-- Result of the external HTTP fetcher yfs.requestor.requestor: a success
flag (response.ok) and the response body (response.text). -/
structure Response where
  ok : Bool
  text : String
deriving DecidableEq, Repr

/-- The quote header object returned by the external parser
yfs.quote.parse_quote_header_info; only its dict() serialization (an
association of field names to raw values) is relevant to the summary module. -/
structure Quote where
  fields : List (String × String)
deriving DecidableEq, Repr

/-- A value stored in the mapping from which a SummaryPage is constructed:
either a raw parsed string or the nested quote object. -/
inductive PVal where
  | str (v : String)
  | quote (q : Quote)
deriving DecidableEq, Repr

/-- Association-list lookup for string-keyed raw data. -/
def lookupStr (l : List (String × String)) (k : String) : Option String :=
  match l with
  | [] => Option.none
  | (k2, v) :: rest => if k2 = k then some v else lookupStr rest k

/-- The environment of external collaborators of src/yfs/summary.py.  Every
component is a pure function, modelling a deterministic data source: the same
query always yields the same result.  Transport keyword arguments (session,
proxies, timeout) are constant across one batch call and are absorbed into the
environment. -/
structure Env where
  /-- yfs.lookup.fuzzy_search with first_ticker=True (external). -/
  fuzzy_search : String → Option ResolvedSymbol
  /-- yfs.requestor.requestor (external HTTP fetch). -/
  requestor : String → Response
  /-- yfs.quote.parse_quote_header_info (external quote header parsing). -/
  parse_quote_header_info : String → Option Quote
  /-- html.find("div#quote-summary", first=True) (external DOM query),
  returning the matched element when present. -/
  find_quote_summary : String → Option String
  /-- yfs.cleaner.table_cleaner (external table extraction). -/
  table_cleaner : String → Option (List (String × String))
  /-- The pydantic validator CommonCleaners.clean_symbol applied to the symbol
  field (external). -/
  clean_symbol : String → String
  /-- The pydantic construction of one optional field of SummaryPage from the
  merged raw mapping: field aliasing plus the CommonCleaners validators
  (external). -/
  clean_field : String → (String → Option PVal) → Option String

/-- Model of yfs.summary.parse_summary_table: query the quote-summary div and,
when it is present, run the external table cleaner on it. -/
def parse_summary_table (env : Env) (html : String) : Option (List (String × String)) :=
  match env.find_quote_summary html with
  | some quote_summary => env.table_cleaner quote_summary
  | Option.none => Option.none

/-- The mapping from which a SummaryPage record is constructed
(src/yfs/summary.py lines 276-278): the ChainMap of the quote-header dict over
the summary-table dict, into which the canonical symbol and the quote object
are then written.  ChainMap lookup prefers the first (quote-header) layer, and
the two subsequent writes land in that first layer. -/
def chain_data (symbol : String) (quote_data : Quote)
    (summary_page_data : List (String × String)) : String → Option PVal :=
  fun k =>
    if k = "symbol" then some (PVal.str symbol)
    else if k = "quote" then some (PVal.quote quote_data)
    else
      match lookupStr quote_data.fields k with
      | some v => some (PVal.str v)
      | Option.none => (lookupStr summary_page_data k).map PVal.str

/-- The record type yfs.summary.SummaryPage.  The symbol field is required;
the typed optional fields are produced by external pydantic cleaning from the
merged raw mapping and are modelled through the attribute function attrs. -/
structure SummaryPage where
  symbol : String
  quote : Quote
  attrs : String → Option String

/-- Construction SummaryPage(**data) from the merged mapping: the symbol field
passes through the clean_symbol validator, the quote field holds the parsed
quote object, and every other field is produced by the external field
cleaning. -/
def mkSummaryPage (env : Env) (symbol : String) (quote_data : Quote)
    (summary_page_data : List (String × String)) : SummaryPage :=
  { symbol := env.clean_symbol symbol
    quote := quote_data
    attrs := fun f => env.clean_field f (chain_data symbol quote_data summary_page_data) }

/-- The fuzzy-resolution prologue of get_summary_page: when enabled and the
resolver finds a match, the symbol is replaced by the canonical one; a failed
resolution keeps the original symbol. -/
def applyFuzzy (env : Env) (symbol : String) (use_fuzzy_search : Bool) : String :=
  if use_fuzzy_search then
    match env.fuzzy_search symbol with
    | some fuzzy_response => fuzzy_response.symbol
    | Option.none => symbol
  else symbol

/-- The summary page URL built by get_summary_page for a symbol. -/
def summaryUrl (symbol : String) : String :=
  "https://finance.yahoo.com/quote/" ++ symbol ++ "?p=" ++ symbol

/-- Model of yfs.summary.get_summary_page.  A raised SummaryPageNotFound is an
error value carrying the exception message; Python None is Option.none.  The
truthiness test on the parsed fragments is kept: the quote header is an object
(truthy whenever present) while the summary table is a dict, which is falsy
also when it is present but empty. -/
def get_summary_page (env : Env) (symbol : String) (use_fuzzy_search : Bool)
    (page_not_found_ok : Bool) : Except String (Option SummaryPage) :=
  let symbol := applyFuzzy env symbol use_fuzzy_search
  let response := env.requestor (summaryUrl symbol)
  let notFound : Except String (Option SummaryPage) :=
    if page_not_found_ok then .ok Option.none
    else .error (symbol ++ " summary page not found.")
  if response.ok then
    match env.parse_quote_header_info response.text,
        parse_summary_table env response.text with
    | some quote_data, some summary_page_data =>
      if summary_page_data.isEmpty then notFound
      else .ok (some (mkSummaryPage env symbol quote_data summary_page_data))
    | some _, Option.none => notFound
    | Option.none, _ => notFound
  else notFound

/-- Combined success condition of the single-symbol fetch at a (resolved)
symbol: the HTTP fetch succeeded and both parsed fragments are present (the
quote header parsed, and the summary table parsed to a non-empty mapping). -/
def pageDataFound (env : Env) (symbol : String) : Bool :=
  let response := env.requestor (summaryUrl symbol)
  response.ok &&
    (env.parse_quote_header_info response.text).isSome &&
    (match parse_summary_table env response.text with
     | some t => !t.isEmpty
     | Option.none => false)

/-- A Python runtime value as seen by SummaryPageGroup.append, which tests the
dynamic class of its argument with page.__class__ is SummaryPage.  The three
cases are: an object whose exact class is SummaryPage, an instance of a proper
subclass of SummaryPage (an instance of SummaryPage in the isinstance sense,
but with a different exact class), and any other value. -/
inductive PyObject where
  | summaryPage (page : SummaryPage)
  | subclassInstance (page : SummaryPage)
  | nonPage

/-- Whether the exact dynamic class of the value is SummaryPage, as tested by
page.__class__ is SummaryPage. -/
def PyObject.isExactSummaryPage : PyObject → Bool
  | .summaryPage _ => true
  | _ => false

/-- The result collection yfs.summary.SummaryPageGroup. -/
structure SummaryPageGroup where
  pages : List SummaryPage

/-- State of the collection after SummaryPageGroup.append: the (possibly
updated) collection together with the raised AttributeError message, when the
append was rejected.  A raised error leaves the collection as it was. -/
structure AppendResult where
  group : SummaryPageGroup
  error : Option String

/-- Model of SummaryPageGroup.append: the page is appended when its exact
class is SummaryPage, and otherwise an AttributeError is raised and the
collection is left unchanged. -/
def SummaryPageGroup.append (g : SummaryPageGroup) (obj : PyObject) : AppendResult :=
  match obj with
  | .summaryPage page => ⟨⟨g.pages ++ [page]⟩, Option.none⟩
  | _ => ⟨g, some "Can only append SummaryPage objects."⟩

/-- Model of the symbols property: the symbol of every page, in collection
order. -/
def SummaryPageGroup.symbols (g : SummaryPageGroup) : List String :=
  g.pages.map (fun p => p.symbol)

/-- Model of SummaryPageGroup.sort: the pages list is replaced by
sorted(self.pages), where SummaryPage.__lt__ compares symbols. -/
def SummaryPageGroup.sort (g : SummaryPageGroup) : SummaryPageGroup :=
  ⟨pySort SummaryPage.symbol g.pages⟩

/-- Model of SummaryPageGroup.__len__. -/
def SummaryPageGroup.length (g : SummaryPageGroup) : Nat :=
  g.pages.length

/-- A serialized field value inside a page dict: a string, Python None, or
the nested quote dict. -/
inductive DictVal where
  | vstr (v : String)
  | vnone
  | vquote (fields : List (String × String))
deriving DecidableEq, Repr

/-- The declared fields of the pydantic model SummaryPage, in declaration
order (src/yfs/summary.py lines 73-112). -/
def summaryFields : List String :=
  ["symbol", "name", "quote", "open", "high", "low", "close", "change",
   "percent_change", "previous_close", "bid_price", "bid_size", "ask_price",
   "ask_size", "fifty_two_week_low", "fifty_two_week_high", "volume",
   "average_volume", "market_cap", "beta_five_year_monthly", "pe_ratio_ttm",
   "eps_ttm", "earnings_date", "forward_dividend_yield",
   "forward_dividend_yield_percentage", "exdividend_date",
   "one_year_target_est"]

/-- The pydantic dict() serialization of one SummaryPage: one entry per
declared model field. -/
def SummaryPage.dict (p : SummaryPage) : List (String × DictVal) :=
  summaryFields.map (fun f =>
    (f, if f = "symbol" then DictVal.vstr p.symbol
        else if f = "quote" then DictVal.vquote p.quote.fields
        else
          match p.attrs f with
          | some v => DictVal.vstr v
          | Option.none => DictVal.vnone))

/-- One row of the tabular projection: the remaining columns of a page dict. -/
abbrev Row := List (String × DictVal)

/-- The value of the symbol column of a page dict, used by set_index. -/
def rowIndex (row : Row) : String :=
  match row.lookup "symbol" with
  | some (DictVal.vstr s) => s
  | _ => ""

/-- Model of the dataframe property: None for an empty collection; otherwise
the rows of the page dicts, reindexed by the symbol column (set_index, which
removes it from the columns), with the quote column dropped and the rows
stably sorted by index (sort_index).  The frame is the list of
(index, row) pairs. -/
def SummaryPageGroup.dataframe (g : SummaryPageGroup) : Option (List (String × Row)) :=
  let pages := g.pages.map SummaryPage.dict
  if pages.isEmpty then Option.none
  else
    let indexed := pages.map (fun row =>
      (rowIndex row,
        (row.filter (fun kv => kv.1 != "symbol")).filter (fun kv => kv.1 != "quote")))
    some (pySort Prod.fst indexed)

/-- The resolution pre-pass shared by both batch download functions, applied
to the collected resolver results: the absent results are discarded, the
canonical symbols are extracted, and the set is deduplicated by list(set(-)). -/
def resolveFromResults (results : List (Option ResolvedSymbol)) : List String :=
  pyDedup ((results.filterMap id).map ResolvedSymbol.symbol)

/-- The sequential resolution pre-pass: the resolver is invoked on every input
symbol in order. -/
def resolveSymbols (env : Env) (symbols : List String) : List String :=
  resolveFromResults (symbols.map env.fuzzy_search)

/-- The symbols iterated by the fetch pass of the sequential download: the
resolved deduplicated set when fuzzy search is enabled, the input list
otherwise. -/
def seqFetchSymbols (env : Env) (symbols : List String) (use_fuzzy_search : Bool) :
    List String :=
  if use_fuzzy_search then resolveSymbols env symbols else symbols

/-- The symbols iterated by the fetch pass of the threaded download, where the
resolver results are drained in the completion order resOrder. -/
def threadFetchSymbols (env : Env) (symbols : List String) (use_fuzzy_search : Bool)
    (resOrder : List Nat) : List String :=
  if use_fuzzy_search then
    resolveFromResults (permuteBy resOrder (symbols.map env.fuzzy_search))
  else symbols

/-- The fetch-pass collection loop shared by both download functions: each
result in turn is retrieved (re-raising a stored error), and truthy results
are appended to the group.  This is the sequential fold the Python for-loops
perform. -/
def collectFrom (g : SummaryPageGroup)
    (rs : List (Except String (Option SummaryPage))) : Except String SummaryPageGroup :=
  match rs with
  | [] => .ok g
  | r :: rest =>
    match r with
    | .error e => .error e
    | .ok results =>
      collectFrom
        (match results with
         | some page => (g.append (PyObject.summaryPage page)).group
         | Option.none => g)
        rest

/-- The pages extracted from a list of fetch results: the successful, present
ones in order. -/
def extractPages (rs : List (Except String (Option SummaryPage))) : List SummaryPage :=
  rs.filterMap (fun r =>
    match r with
    | .ok (some page) => some page
    | _ => Option.none)

/-- The fetch results of the sequential fetch pass, in iteration order. -/
def seqFutures (env : Env) (symbols : List String) (use_fuzzy_search : Bool)
    (page_not_found_ok : Bool) : List (Except String (Option SummaryPage)) :=
  (seqFetchSymbols env symbols use_fuzzy_search).map
    (fun s => get_summary_page env s false page_not_found_ok)

/-- The fetch results of the threaded fetch pass, in submission order. -/
def threadFutures (env : Env) (symbols : List String) (use_fuzzy_search : Bool)
    (page_not_found_ok : Bool) (resOrder : List Nat) :
    List (Except String (Option SummaryPage)) :=
  (threadFetchSymbols env symbols use_fuzzy_search resOrder).map
    (fun s => get_summary_page env s false page_not_found_ok)

/-- Model of yfs.summary._download_summary_pages_without_threads.  The
progress bar only renders and is omitted. -/
def download_summary_pages_without_threads (env : Env) (symbols : List String)
    (use_fuzzy_search : Bool) (page_not_found_ok : Bool) :
    Except String (Option SummaryPageGroup) :=
  match collectFrom ⟨[]⟩
      (seqFutures env symbols use_fuzzy_search page_not_found_ok) with
  | .error e => .error e
  | .ok summary_pages =>
    if 0 < summary_pages.length then .ok (some summary_pages) else .ok Option.none

/-- Model of yfs.summary._download_summary_pages_with_threads.  The bounded
worker pool runs the same resolver and fetch calls as the sequential version;
its only observable difference is the order in which as_completed drains the
futures of each pass, modelled by the index lists resOrder and fetchOrder
(the theorems hypothesize that they are permutations of the submitted index
range).  The thread count bounds parallelism only and the progress bar only
renders; both are omitted. -/
def download_summary_pages_with_threads (env : Env) (symbols : List String)
    (use_fuzzy_search : Bool) (page_not_found_ok : Bool)
    (resOrder fetchOrder : List Nat) : Except String (Option SummaryPageGroup) :=
  match collectFrom ⟨[]⟩
      (permuteBy fetchOrder
        (threadFutures env symbols use_fuzzy_search page_not_found_ok resOrder)) with
  | .error e => .error e
  | .ok summary_pages =>
    if 0 < summary_pages.length then .ok (some summary_pages) else .ok Option.none

/-- Model of yfs.summary.get_multiple_summary_pages: the input list is
deduplicated with set semantics, then one of the two download modes runs.  The
completion orders are only consulted in threaded mode. -/
def get_multiple_summary_pages (env : Env) (symbols : List String)
    (use_fuzzy_search : Bool) (page_not_found_ok : Bool) (with_threads : Bool)
    (resOrder fetchOrder : List Nat) : Except String (Option SummaryPageGroup) :=
  let symbols := pyDedup symbols
  if with_threads then
    download_summary_pages_with_threads env symbols use_fuzzy_search
      page_not_found_ok resOrder fetchOrder
  else
    download_summary_pages_without_threads env symbols use_fuzzy_search
      page_not_found_ok

/-- An environment in which every HTTP fetch fails; used to instantiate
theorems at concrete inputs. -/
def envDown : Env :=
  { fuzzy_search := fun _ => Option.none
    requestor := fun _ => ⟨false, ""⟩
    parse_quote_header_info := fun _ => Option.none
    find_quote_summary := fun _ => Option.none
    table_cleaner := fun _ => Option.none
    clean_symbol := fun s => s
    clean_field := fun _ _ => Option.none }

/-- An environment with a working resolver for every query except "BAD" and a
page source that always yields one quote-header and one one-entry summary
table; used to instantiate theorems at concrete inputs. -/
def envUp : Env :=
  { fuzzy_search := fun s => if s = "BAD" then Option.none else some ⟨s⟩
    requestor := fun url => ⟨true, url⟩
    parse_quote_header_info := fun _ => some ⟨[("name", "Some Company")]⟩
    find_quote_summary := fun text => some text
    table_cleaner := fun _ => some [("open", "10.0")]
    clean_symbol := fun s => s
    clean_field := fun _ _ => Option.none }

/-- A concrete record with symbol B, used to instantiate theorems. -/
def pageB : SummaryPage :=
  { symbol := "B", quote := ⟨[]⟩, attrs := fun _ => Option.none }

/-- A concrete record with symbol A, used to instantiate theorems. -/
def pageA : SummaryPage :=
  { symbol := "A", quote := ⟨[]⟩, attrs := fun _ => Option.none }

/-- A concrete collection holding the records with symbols B and A, in that
order. -/
def groupBA : SummaryPageGroup := ⟨[pageB, pageA]⟩

/-- A concrete record as built by get_summary_page in the envUp environment
for the symbol GOOG. -/
def pageGOOG : SummaryPage :=
  mkSummaryPage envUp "GOOG" ⟨[("name", "Some Company")]⟩ [("open", "10.0")]

/-- A concrete record as built by get_summary_page in the envUp environment
for the symbol AAPL. -/
def pageAAPL : SummaryPage :=
  mkSummaryPage envUp "AAPL" ⟨[("name", "Some Company")]⟩ [("open", "10.0")]

theorem strLe_iff (a b : String) : strLe a b = true ↔ a ≤ b := by
  simp [strLe, String.le_iff_toList_le, String.toList]

theorem pySort_sorted (f : α → String) (l : List α) :
    List.Sorted (leBy f) (pySort f l) := List.sorted_insertionSort (leBy f) l

theorem pySort_perm (f : α → String) (l : List α) : (pySort f l).Perm l :=
  List.perm_insertionSort (leBy f) l

theorem mem_pyDedupAux {a : String} :
    ∀ {seen l : List String}, a ∈ pyDedupAux seen l ↔ a ∈ l ∧ a ∉ seen := by
  intro seen l
  induction l generalizing seen with
  | nil => simp [pyDedupAux]
  | cons x xs ih =>
    rw [pyDedupAux]
    by_cases hx : x ∈ seen
    · rw [if_pos hx, ih]
      constructor
      · rintro ⟨h1, h2⟩
        exact ⟨List.mem_cons_of_mem _ h1, h2⟩
      · rintro ⟨h1, h2⟩
        rcases List.mem_cons.mp h1 with rfl | h1
        · exact absurd hx h2
        · exact ⟨h1, h2⟩
    · rw [if_neg hx]
      constructor
      · intro hmem
        rcases List.mem_cons.mp hmem with rfl | hmem
        · exact ⟨List.mem_cons_self _ _, hx⟩
        · obtain ⟨h1, h2⟩ := ih.mp hmem
          refine ⟨List.mem_cons_of_mem _ h1, fun hseen => ?_⟩
          exact h2 (List.mem_cons_of_mem _ hseen)
      · rintro ⟨h1, h2⟩
        rcases List.mem_cons.mp h1 with rfl | h1
        · exact List.mem_cons_self _ _
        · by_cases hax : a = x
          · subst hax
            exact List.mem_cons_self _ _
          · refine List.mem_cons_of_mem _ (ih.mpr ⟨h1, fun hmem => ?_⟩)
            rcases List.mem_cons.mp hmem with h | h
            · exact hax h
            · exact h2 h

theorem pyDedupAux_nodup : ∀ (seen l : List String), (pyDedupAux seen l).Nodup := by
  intro seen l
  induction l generalizing seen with
  | nil => simp [pyDedupAux]
  | cons x xs ih =>
    rw [pyDedupAux]
    by_cases hx : x ∈ seen
    · rw [if_pos hx]
      exact ih seen
    · rw [if_neg hx]
      refine List.nodup_cons.mpr ⟨fun hmem => ?_, ih (x :: seen)⟩
      exact (mem_pyDedupAux.mp hmem).2 (List.mem_cons_self _ _)

theorem mem_pyDedup {a : String} {l : List String} : a ∈ pyDedup l ↔ a ∈ l := by
  unfold pyDedup
  rw [mem_pyDedupAux]
  simp

theorem pyDedup_nodup (l : List String) : (pyDedup l).Nodup :=
  pyDedupAux_nodup [] l

theorem pyDedup_perm_of_perm {l₁ l₂ : List String} (h : l₁.Perm l₂) :
    (pyDedup l₁).Perm (pyDedup l₂) := by
  refine List.perm_of_nodup_nodup_toFinset_eq (pyDedup_nodup l₁) (pyDedup_nodup l₂) ?_
  ext a
  simp only [List.mem_toFinset, mem_pyDedup]
  exact ⟨fun ha => h.mem_iff.mp ha, fun ha => h.mem_iff.mpr ha⟩

theorem pyDedupAux_append_dup {s : String} :
    ∀ {seen l r : List String}, s ∈ l ∨ s ∈ seen →
      pyDedupAux seen (l ++ s :: r) = pyDedupAux seen (l ++ r) := by
  intro seen l r hs
  induction l generalizing seen with
  | nil =>
    have hseen : s ∈ seen := by
      rcases hs with h | h
      · exact absurd h (List.not_mem_nil s)
      · exact h
    rw [List.nil_append, List.nil_append, pyDedupAux, if_pos hseen]
  | cons x l ih =>
    rw [List.cons_append, List.cons_append, pyDedupAux, pyDedupAux]
    by_cases hx : x ∈ seen
    · rw [if_pos hx, if_pos hx]
      refine ih ?_
      rcases hs with h | h
      · rcases List.mem_cons.mp h with rfl | h
        · exact Or.inr hx
        · exact Or.inl h
      · exact Or.inr h
    · rw [if_neg hx, if_neg hx]
      congr 1
      refine ih ?_
      rcases hs with h | h
      · rcases List.mem_cons.mp h with rfl | h
        · exact Or.inr (List.mem_cons_self _ _)
        · exact Or.inl h
      · exact Or.inr (List.mem_cons_of_mem _ h)

/-- Removing a later duplicate occurrence does not change the dedup result. -/
theorem pyDedup_append_dup {s : String} {l r : List String} (hs : s ∈ l) :
    pyDedup (l ++ s :: r) = pyDedup (l ++ r) :=
  pyDedupAux_append_dup (Or.inl hs)

theorem filterMap_getElem_range (l : List α) :
    (List.range l.length).filterMap (fun i => l[i]?) = l := by
  induction l with
  | nil => simp
  | cons x xs ih =>
    rw [List.length_cons, List.range_succ_eq_map]
    simp only [List.filterMap_cons, List.getElem?_cons_zero, List.filterMap_map]
    rw [show ((fun i => (x :: xs)[i]?) ∘ (fun i => i + 1)) = fun i => xs[i]? from ?_]
    · rw [ih]
    · funext i
      simp

theorem permuteBy_perm {order : List Nat} {l : List α}
    (h : order.Perm (List.range l.length)) : (permuteBy order l).Perm l := by
  have h1 : (permuteBy order l).Perm ((List.range l.length).filterMap (fun i => l[i]?)) :=
    List.Perm.filterMap _ h
  rw [filterMap_getElem_range] at h1
  exact h1

theorem permuteBy_range (l : List α) : permuteBy (List.range l.length) l = l :=
  filterMap_getElem_range l

theorem collectFrom_of_all_ok :
    ∀ (rs : List (Except String (Option SummaryPage))) (g : SummaryPageGroup),
      (∀ r ∈ rs, ∃ o, r = .ok o) →
      collectFrom g rs = .ok ⟨g.pages ++ extractPages rs⟩
  | [], g, _ => by simp [collectFrom, extractPages]
  | r :: rest, g, hall => by
    obtain ⟨o, rfl⟩ := hall r (List.mem_cons_self r rest)
    have hrest : ∀ r2 ∈ rest, ∃ o2, r2 = .ok o2 :=
      fun r2 h2 => hall r2 (List.mem_cons_of_mem _ h2)
    cases o with
    | none =>
      rw [collectFrom, collectFrom_of_all_ok rest g hrest]
      simp [extractPages]
    | some page =>
      rw [collectFrom]
      rw [collectFrom_of_all_ok rest ((g.append (PyObject.summaryPage page)).group) hrest]
      simp [extractPages, SummaryPageGroup.append]

theorem collectFrom_error_of_mem {e : String} :
    ∀ {rs : List (Except String (Option SummaryPage))}, Except.error e ∈ rs →
      ∀ (g : SummaryPageGroup), ∃ e2, collectFrom g rs = .error e2
  | [], hmem, _ => absurd hmem (List.not_mem_nil _)
  | r :: rest, hmem, g => by
    cases r with
    | error e2 => exact ⟨e2, by rw [collectFrom]⟩
    | ok o =>
      have hrest : Except.error e ∈ rest := by
        rcases List.mem_cons.mp hmem with h | h
        · exact absurd h.symm (by simp)
        · exact h
      cases o with
      | none =>
        rw [collectFrom]
        exact collectFrom_error_of_mem hrest _
      | some page =>
        rw [collectFrom]
        exact collectFrom_error_of_mem hrest _

theorem collectFrom_ok_inv {rs : List (Except String (Option SummaryPage))}
    {g h : SummaryPageGroup} (hok : collectFrom g rs = .ok h) :
    (∀ r ∈ rs, ∃ o, r = .ok o) ∧ h.pages = g.pages ++ extractPages rs := by
  have hall : ∀ r ∈ rs, ∃ o, r = .ok o := by
    intro r hr
    cases r with
    | ok o => exact ⟨o, rfl⟩
    | error e =>
      obtain ⟨e2, he2⟩ := collectFrom_error_of_mem hr g
      rw [hok] at he2
      exact absurd he2 (by simp)
  refine ⟨hall, ?_⟩
  have := collectFrom_of_all_ok rs g hall
  rw [hok] at this
  have := Except.ok.inj this
  rw [this]

/-- Transport of a successful fetch-pass collection along a permutation of the
drained results: the collected pages are a permutation as well. -/
theorem collectFrom_perm {rs rs2 : List (Except String (Option SummaryPage))}
    {g : SummaryPageGroup} (hperm : rs.Perm rs2)
    (hok : collectFrom ⟨[]⟩ rs = .ok g) :
    ∃ g2, collectFrom ⟨[]⟩ rs2 = .ok g2 ∧ g.pages.Perm g2.pages := by
  obtain ⟨hall, hpages⟩ := collectFrom_ok_inv hok
  have hall2 : ∀ r ∈ rs2, ∃ o, r = .ok o :=
    fun r hr => hall r (hperm.mem_iff.mpr hr)
  refine ⟨⟨extractPages rs2⟩, ?_, ?_⟩
  · have := collectFrom_of_all_ok rs2 ⟨[]⟩ hall2
    simpa using this
  · rw [hpages]
    simpa [extractPages] using List.Perm.filterMap _ hperm

theorem download_without_ok_some_iff {env : Env} {symbols : List String}
    {fz pnfo : Bool} {g : SummaryPageGroup} :
    download_summary_pages_without_threads env symbols fz pnfo = .ok (some g) ↔
      collectFrom ⟨[]⟩ (seqFutures env symbols fz pnfo) = .ok g ∧ 0 < g.length := by
  unfold download_summary_pages_without_threads
  cases hc : collectFrom ⟨[]⟩ (seqFutures env symbols fz pnfo) with
  | error e => simp
  | ok g0 =>
    by_cases hlen : 0 < g0.length
    · simp only [hlen, if_pos]
      constructor
      · intro h
        have := Option.some.inj (Except.ok.inj h)
        subst this
        exact ⟨rfl, hlen⟩
      · rintro ⟨h1, h2⟩
        rw [Except.ok.inj h1]
    · simp only [hlen, if_neg, if_false]
      constructor
      · intro h
        exact absurd (Except.ok.inj h) (by simp)
      · rintro ⟨h1, h2⟩
        rw [Except.ok.inj h1] at hlen
        exact absurd h2 hlen

theorem download_without_ok_none_iff {env : Env} {symbols : List String}
    {fz pnfo : Bool} :
    download_summary_pages_without_threads env symbols fz pnfo = .ok Option.none ↔
      ∃ g, collectFrom ⟨[]⟩ (seqFutures env symbols fz pnfo) = .ok g ∧
        g.length = 0 := by
  unfold download_summary_pages_without_threads
  cases hc : collectFrom ⟨[]⟩ (seqFutures env symbols fz pnfo) with
  | error e => simp
  | ok g0 =>
    by_cases hlen : 0 < g0.length
    · simp only [hlen, if_pos]
      constructor
      · intro h
        exact absurd (Except.ok.inj h) (by simp)
      · rintro ⟨g, h1, h2⟩
        rw [Except.ok.inj h1] at hlen
        omega
    · simp only [hlen, if_neg, if_false]
      constructor
      · intro _
        exact ⟨g0, rfl, by omega⟩
      · intro _
        trivial

theorem download_with_ok_some_iff {env : Env} {symbols : List String}
    {fz pnfo : Bool} {resOrder fetchOrder : List Nat} {g : SummaryPageGroup} :
    download_summary_pages_with_threads env symbols fz pnfo resOrder fetchOrder =
        .ok (some g) ↔
      collectFrom ⟨[]⟩
          (permuteBy fetchOrder (threadFutures env symbols fz pnfo resOrder)) =
        .ok g ∧ 0 < g.length := by
  unfold download_summary_pages_with_threads
  cases hc : collectFrom ⟨[]⟩
      (permuteBy fetchOrder (threadFutures env symbols fz pnfo resOrder)) with
  | error e => simp
  | ok g0 =>
    by_cases hlen : 0 < g0.length
    · simp only [hlen, if_pos]
      constructor
      · intro h
        have := Option.some.inj (Except.ok.inj h)
        subst this
        exact ⟨rfl, hlen⟩
      · rintro ⟨h1, h2⟩
        rw [Except.ok.inj h1]
    · simp only [hlen, if_neg, if_false]
      constructor
      · intro h
        exact absurd (Except.ok.inj h) (by simp)
      · rintro ⟨h1, h2⟩
        rw [Except.ok.inj h1] at hlen
        exact absurd h2 hlen

theorem download_with_ok_none_iff {env : Env} {symbols : List String}
    {fz pnfo : Bool} {resOrder fetchOrder : List Nat} :
    download_summary_pages_with_threads env symbols fz pnfo resOrder fetchOrder =
        .ok Option.none ↔
      ∃ g, collectFrom ⟨[]⟩
          (permuteBy fetchOrder (threadFutures env symbols fz pnfo resOrder)) =
        .ok g ∧ g.length = 0 := by
  unfold download_summary_pages_with_threads
  cases hc : collectFrom ⟨[]⟩
      (permuteBy fetchOrder (threadFutures env symbols fz pnfo resOrder)) with
  | error e => simp
  | ok g0 =>
    by_cases hlen : 0 < g0.length
    · simp only [hlen, if_pos]
      constructor
      · intro h
        exact absurd (Except.ok.inj h) (by simp)
      · rintro ⟨g, h1, h2⟩
        rw [Except.ok.inj h1] at hlen
        omega
    · simp only [hlen, if_neg, if_false]
      constructor
      · intro _
        exact ⟨g0, rfl, by omega⟩
      · intro _
        trivial

theorem get_summary_page_of_not_found {env : Env} {symbol : String}
    {fz pnfo : Bool}
    (h : pageDataFound env (applyFuzzy env symbol fz) = false) :
    get_summary_page env symbol fz pnfo =
      if pnfo then .ok Option.none
      else .error (applyFuzzy env symbol fz ++ " summary page not found.") := by
  simp only [pageDataFound] at h
  simp only [get_summary_page]
  cases hok : (env.requestor (summaryUrl (applyFuzzy env symbol fz))).ok with
  | false => simp [hok]
  | true =>
    rw [hok] at h
    cases hq : env.parse_quote_header_info
        (env.requestor (summaryUrl (applyFuzzy env symbol fz))).text with
    | none => simp [hok, hq]
    | some quote_data =>
      rw [hq] at h
      cases ht : parse_summary_table env
          (env.requestor (summaryUrl (applyFuzzy env symbol fz))).text with
      | none => simp [hok, hq, ht]
      | some summary_page_data =>
        rw [ht] at h
        have he : summary_page_data.isEmpty = true := by simpa using h
        simp [hok, hq, ht, he]

theorem get_summary_page_of_found {env : Env} {symbol : String}
    {fz pnfo : Bool}
    (h : pageDataFound env (applyFuzzy env symbol fz) = true) :
    ∃ quote_data summary_page_data,
      env.parse_quote_header_info
          (env.requestor (summaryUrl (applyFuzzy env symbol fz))).text =
        some quote_data ∧
      parse_summary_table env
          (env.requestor (summaryUrl (applyFuzzy env symbol fz))).text =
        some summary_page_data ∧
      summary_page_data.isEmpty = false ∧
      get_summary_page env symbol fz pnfo =
        .ok (some (mkSummaryPage env (applyFuzzy env symbol fz) quote_data
          summary_page_data)) := by
  simp only [pageDataFound] at h
  cases hok : (env.requestor (summaryUrl (applyFuzzy env symbol fz))).ok with
  | false => rw [hok] at h; simp at h
  | true =>
    rw [hok] at h
    cases hq : env.parse_quote_header_info
        (env.requestor (summaryUrl (applyFuzzy env symbol fz))).text with
    | none => rw [hq] at h; simp at h
    | some quote_data =>
      rw [hq] at h
      cases ht : parse_summary_table env
          (env.requestor (summaryUrl (applyFuzzy env symbol fz))).text with
      | none => rw [ht] at h; simp at h
      | some summary_page_data =>
        rw [ht] at h
        have he : summary_page_data.isEmpty = false := by simpa using h
        refine ⟨quote_data, summary_page_data, rfl, rfl, he, ?_⟩
        simp only [get_summary_page]
        simp [hok, hq, ht, he]

/-- Claim C1: for every call to the single-symbol fetch (get_summary_page),
if the page fetch fails (non-success status) or either parsed fragment (the
quote header, or a non-empty summary table) is absent, the call returns
absent when page_not_found_ok is true and raises SummaryPageNotFound (an
error value carrying the exception message) when page_not_found_ok is false;
and it returns a Record only when the fetch succeeds and both fragments are
present.  pageDataFound states the fetch/fragment success condition at the
symbol left by the fuzzy-resolution prologue. -/
theorem claim_C1 (env : Env) (symbol : String) (fz pnfo : Bool) :
    (pageDataFound env (applyFuzzy env symbol fz) = false →
      get_summary_page env symbol fz pnfo =
        if pnfo then .ok Option.none
        else .error (applyFuzzy env symbol fz ++ " summary page not found.")) ∧
    (∀ p, get_summary_page env symbol fz pnfo = .ok (some p) →
      pageDataFound env (applyFuzzy env symbol fz) = true) := by
  constructor
  · exact fun h => get_summary_page_of_not_found h
  · intro p hp
    cases hfound : pageDataFound env (applyFuzzy env symbol fz) with
    | true => rfl
    | false =>
      rw [get_summary_page_of_not_found hfound] at hp
      cases pnfo with
      | true => simp at hp
      | false => simp at hp

/-- Witness for C1 at a concrete input: in the environment whose fetch always
fails, the fetch/fragment condition is false, the tolerant call returns
absent, and the strict call raises with the page-not-found message. -/
theorem claim_C1_witness :
    pageDataFound envDown (applyFuzzy envDown "AAPL" false) = false ∧
    get_summary_page envDown "AAPL" false true = .ok Option.none ∧
    get_summary_page envDown "AAPL" false false =
      .error ("AAPL" ++ " summary page not found.") := by
  refine ⟨rfl, ?_, ?_⟩
  · have := (claim_C1 envDown "AAPL" false true).1 rfl
    simpa using this
  · have := (claim_C1 envDown "AAPL" false false).1 rfl
    simpa using this

/-- Counterexample to claim C6 as stated.  The claim quantifies over every key
present in both fragments; at the key "symbol" the constructed mapping holds
the canonical symbol written after the merge (src/yfs/summary.py line 277),
not the quote-header value, so the built record does not keep the quote-header
value there. -/
theorem claim_C6_counterexample :
    lookupStr (Quote.mk [("symbol", "HDR")]).fields "symbol" = some "HDR" ∧
    lookupStr [("symbol", "TBL")] "symbol" = some "TBL" ∧
    chain_data "AAPL" (Quote.mk [("symbol", "HDR")]) [("symbol", "TBL")]
      "symbol" = some (PVal.str "AAPL") ∧
    some (PVal.str "AAPL") ≠ some (PVal.str "HDR") :=
  ⟨rfl, rfl, rfl, by decide⟩

/-- Claim C6, amended: when a Record is built from a quote-header fragment and
a summary-table fragment, for every key present in both fragments other than
the keys "symbol" and "quote" (which are overwritten after the merge with the
canonical symbol and the parsed quote object), the mapping the record is built
from keeps the quote-header value: the summary-table value never overrides the
quote-header value. -/
theorem claim_C6 (symbol : String) (quote_data : Quote)
    (summary_page_data : List (String × String)) (k v w : String)
    (hk1 : k ≠ "symbol") (hk2 : k ≠ "quote")
    (hq : lookupStr quote_data.fields k = some v)
    (ht : lookupStr summary_page_data k = some w) :
    chain_data symbol quote_data summary_page_data k = some (PVal.str v) := by
  unfold chain_data
  rw [if_neg hk1, if_neg hk2, hq]

/-- Witness for the amended C6 at a concrete overlapping key. -/
theorem claim_C6_witness :
    chain_data "AAPL" (Quote.mk [("open", "1.0")]) [("open", "2.0")] "open" =
      some (PVal.str "1.0") :=
  claim_C6 "AAPL" (Quote.mk [("open", "1.0")]) [("open", "2.0")] "open"
    "1.0" "2.0" (by decide) (by decide) rfl rfl

/-- Claim C7: for every Result Collection, sorting and then reading the
symbols projection yields a lexicographically non-decreasing sequence. -/
theorem claim_C7 (g : SummaryPageGroup) :
    List.Sorted (fun a b : String => a ≤ b) (g.sort).symbols := by
  have h := pySort_sorted SummaryPage.symbol g.pages
  unfold SummaryPageGroup.sort SummaryPageGroup.symbols
  refine List.pairwise_map.mpr ?_
  exact h.imp (fun hab => (strLe_iff _ _).mp hab)

/-- Claim C9: appending a non-Record value (a value whose exact class is not
SummaryPage) raises the invalid-append AttributeError and leaves the
collection unchanged, while appending a Record succeeds without error and
increases the length by exactly one. -/
theorem claim_C9 (g : SummaryPageGroup) :
    (∀ obj, obj.isExactSummaryPage = false →
      (g.append obj).group = g ∧
      (g.append obj).error = some "Can only append SummaryPage objects.") ∧
    (∀ page, ((g.append (PyObject.summaryPage page)).group).length =
        g.length + 1 ∧
      (g.append (PyObject.summaryPage page)).error = Option.none) := by
  constructor
  · intro obj hobj
    cases obj with
    | summaryPage page => simp [PyObject.isExactSummaryPage] at hobj
    | subclassInstance page => exact ⟨rfl, rfl⟩
    | nonPage => exact ⟨rfl, rfl⟩
  · intro page
    refine ⟨?_, rfl⟩
    simp [SummaryPageGroup.append, SummaryPageGroup.length]

/-- Witness for C9 at concrete inputs: appending a non-page value to the
empty collection leaves it empty and raises, and appending a concrete record
yields length one. -/
theorem claim_C9_witness :
    ((SummaryPageGroup.mk []).append PyObject.nonPage).group =
      SummaryPageGroup.mk [] ∧
    ((SummaryPageGroup.mk []).append PyObject.nonPage).error =
      some "Can only append SummaryPage objects." ∧
    (((SummaryPageGroup.mk []).append (PyObject.summaryPage pageA)).group).length = 1 := by
  refine ⟨((claim_C9 ⟨[]⟩).1 PyObject.nonPage rfl).1,
    ((claim_C9 ⟨[]⟩).1 PyObject.nonPage rfl).2, ?_⟩
  have := ((claim_C9 ⟨[]⟩).2 pageA).1
  simpa [SummaryPageGroup.length] using this

/-- Claim C10: append checks the exact dynamic class, not an isinstance
relation: an instance of a proper subclass of SummaryPage is rejected with the
invalid-append AttributeError and the collection is left unchanged. -/
theorem claim_C10 (g : SummaryPageGroup) (page : SummaryPage) :
    (g.append (PyObject.subclassInstance page)).error =
      some "Can only append SummaryPage objects." ∧
    (g.append (PyObject.subclassInstance page)).group = g :=
  ⟨rfl, rfl⟩

theorem resolveFromResults_drop_none (r₁ r₂ : List (Option ResolvedSymbol)) :
    resolveFromResults (r₁ ++ Option.none :: r₂) = resolveFromResults (r₁ ++ r₂) := by
  unfold resolveFromResults
  rw [List.filterMap_append, List.filterMap_append, List.filterMap_cons]
  rfl

theorem resolveFromResults_nodup (results : List (Option ResolvedSymbol)) :
    (resolveFromResults results).Nodup :=
  pyDedup_nodup _

theorem resolveFromResults_perm {r₁ r₂ : List (Option ResolvedSymbol)}
    (h : r₁.Perm r₂) :
    (resolveFromResults r₁).Perm (resolveFromResults r₂) :=
  pyDedup_perm_of_perm ((h.filterMap id).map ResolvedSymbol.symbol)

/-- Claim C2: in either scheduling mode, the batch download returns the
Result Collection exactly when the fetch pass collected at least one Record,
returns absent exactly when the fetch pass collected none, and never returns
an empty-but-present collection. -/
theorem claim_C2 (env : Env) (symbols : List String) (fz pnfo : Bool)
    (resOrder fetchOrder : List Nat) :
    (∀ g, download_summary_pages_without_threads env symbols fz pnfo =
        .ok (some g) ↔
      collectFrom ⟨[]⟩ (seqFutures env symbols fz pnfo) = .ok g ∧
        0 < g.length) ∧
    (download_summary_pages_without_threads env symbols fz pnfo =
        .ok Option.none ↔
      ∃ g, collectFrom ⟨[]⟩ (seqFutures env symbols fz pnfo) = .ok g ∧
        g.length = 0) ∧
    (∀ g, download_summary_pages_with_threads env symbols fz pnfo resOrder
        fetchOrder = .ok (some g) ↔
      collectFrom ⟨[]⟩
          (permuteBy fetchOrder (threadFutures env symbols fz pnfo resOrder)) =
        .ok g ∧ 0 < g.length) ∧
    (download_summary_pages_with_threads env symbols fz pnfo resOrder
        fetchOrder = .ok Option.none ↔
      ∃ g, collectFrom ⟨[]⟩
          (permuteBy fetchOrder (threadFutures env symbols fz pnfo resOrder)) =
        .ok g ∧ g.length = 0) :=
  ⟨fun _ => download_without_ok_some_iff, download_without_ok_none_iff,
   fun _ => download_with_ok_some_iff, download_with_ok_none_iff⟩

/-- Witness for C2 at concrete inputs: with every fetch failing and the
tolerant flag set the batch returns absent, and with a working page source a
one-element batch returns the one-record collection. -/
theorem claim_C2_witness :
    download_summary_pages_without_threads envDown ["A"] false true =
      .ok Option.none ∧
    download_summary_pages_without_threads envUp ["GOOG"] false true =
      .ok (some ⟨[pageGOOG]⟩) :=
  ⟨(claim_C2 envDown ["A"] false true [] []).2.1.mpr ⟨⟨[]⟩, rfl, rfl⟩,
   ((claim_C2 envUp ["GOOG"] false true [] []).1 ⟨[pageGOOG]⟩).mpr
     ⟨rfl, by decide⟩⟩

/-- Claim C3: in the resolution pre-pass of the batch orchestrator, an input
whose resolution is absent is silently dropped, with no error regardless of
page_not_found_ok (stated both as invariance of the sequential download under
removing such an input, and as invariance of the shared pre-pass under an
absent collected result); and the resolved symbol set is deduplicated before
the fetch pass, so two inputs resolving to the same canonical symbol put it
in the fetch pass exactly once. -/
theorem claim_C3 :
    (∀ (env : Env) (l₁ l₂ : List String) (s : String) (pnfo : Bool),
      env.fuzzy_search s = Option.none →
      download_summary_pages_without_threads env (l₁ ++ s :: l₂) true pnfo =
        download_summary_pages_without_threads env (l₁ ++ l₂) true pnfo) ∧
    (∀ (r₁ r₂ : List (Option ResolvedSymbol)),
      resolveFromResults (r₁ ++ Option.none :: r₂) =
        resolveFromResults (r₁ ++ r₂)) ∧
    (∀ results, (resolveFromResults results).Nodup) ∧
    (∀ (env : Env) (symbols : List String) (a : String) (ra : ResolvedSymbol),
      a ∈ symbols → env.fuzzy_search a = some ra →
      (resolveSymbols env symbols).count ra.symbol = 1) := by
  refine ⟨?_, resolveFromResults_drop_none, resolveFromResults_nodup, ?_⟩
  · intro env l₁ l₂ s pnfo hnone
    have hres : resolveSymbols env (l₁ ++ s :: l₂) = resolveSymbols env (l₁ ++ l₂) := by
      unfold resolveSymbols
      rw [List.map_append, List.map_cons, hnone, List.map_append]
      exact resolveFromResults_drop_none _ _
    have hfut : seqFutures env (l₁ ++ s :: l₂) true pnfo =
        seqFutures env (l₁ ++ l₂) true pnfo := by
      unfold seqFutures seqFetchSymbols
      rw [if_pos rfl, if_pos rfl, hres]
    unfold download_summary_pages_without_threads
    rw [hfut]
  · intro env symbols a ra ha hra
    have hmem : ra.symbol ∈ resolveSymbols env symbols := by
      unfold resolveSymbols resolveFromResults
      rw [mem_pyDedup]
      refine List.mem_map.mpr ⟨ra, ?_, rfl⟩
      refine List.mem_filterMap.mpr ⟨some ra, ?_, rfl⟩
      exact List.mem_map.mpr ⟨a, ha, hra⟩
    exact List.count_eq_one_of_mem (resolveFromResults_nodup _) hmem

/-- Witness for C3 at concrete inputs: dropping the unresolvable query BAD
does not change the sequential batch result, and a resolvable symbol is
counted exactly once in the resolved set. -/
theorem claim_C3_witness :
    download_summary_pages_without_threads envUp (["GOOG"] ++ "BAD" :: []) true
        true =
      download_summary_pages_without_threads envUp (["GOOG"] ++ []) true true ∧
    (resolveSymbols envUp ["GOOG", "MSFT"]).count "GOOG" = 1 := by
  constructor
  · exact claim_C3.1 envUp ["GOOG"] [] "BAD" true rfl
  · have := claim_C3.2.2.2 envUp ["GOOG", "MSFT"] "GOOG" ⟨"GOOG"⟩
      (by simp) rfl
    simpa using this

/-- Claim C4: the batch orchestrator deduplicates its input with set
semantics before any pass, so an input list with a repeated string produces
the same result as the list with a single occurrence, and the fetch pass
iterates a duplicate-free symbol list in both scheduling modes (hence invokes
the single-symbol fetch at most once per distinct symbol). -/
theorem claim_C4 :
    (∀ (env : Env) (L l₃ : List String) (s : String) (fz pnfo wt : Bool)
        (resOrder fetchOrder : List Nat), s ∈ L →
      get_multiple_summary_pages env (L ++ s :: l₃) fz pnfo wt resOrder
          fetchOrder =
        get_multiple_summary_pages env (L ++ l₃) fz pnfo wt resOrder
          fetchOrder) ∧
    (∀ (env : Env) (l : List String) (fz : Bool),
      (seqFetchSymbols env (pyDedup l) fz).Nodup) ∧
    (∀ (env : Env) (l : List String) (fz : Bool) (resOrder : List Nat),
      (threadFetchSymbols env (pyDedup l) fz resOrder).Nodup) := by
  refine ⟨?_, ?_, ?_⟩
  · intro env L l₃ s fz pnfo wt resOrder fetchOrder hs
    unfold get_multiple_summary_pages
    rw [pyDedup_append_dup hs]
  · intro env l fz
    cases fz with
    | true =>
      unfold seqFetchSymbols
      rw [if_pos rfl]
      exact resolveFromResults_nodup _
    | false =>
      unfold seqFetchSymbols
      rw [if_neg (by simp)]
      exact pyDedup_nodup l
  · intro env l fz resOrder
    cases fz with
    | true =>
      unfold threadFetchSymbols
      rw [if_pos rfl]
      exact resolveFromResults_nodup _
    | false =>
      unfold threadFetchSymbols
      rw [if_neg (by simp)]
      exact pyDedup_nodup l

/-- Witness for C4 at concrete inputs: the list with GOOG twice gives the
same batch result as the list with GOOG once, and the concrete fetch-pass
symbol list is duplicate-free. -/
theorem claim_C4_witness :
    get_multiple_summary_pages envUp (["GOOG"] ++ "GOOG" :: []) true true false
        [] [] =
      get_multiple_summary_pages envUp (["GOOG"] ++ []) true true false [] [] ∧
    (seqFetchSymbols envUp (pyDedup ["GOOG", "GOOG"]) true).Nodup :=
  ⟨claim_C4.1 envUp ["GOOG"] [] "GOOG" true true false [] []
     (List.mem_singleton.mpr rfl),
   claim_C4.2.1 envUp ["GOOG", "GOOG"] true⟩

theorem threadFetchSymbols_perm {env : Env} {symbols : List String} {fz : Bool}
    {resOrder : List Nat}
    (hres : resOrder.Perm (List.range symbols.length)) :
    (threadFetchSymbols env symbols fz resOrder).Perm
      (seqFetchSymbols env symbols fz) := by
  cases fz with
  | false =>
    unfold threadFetchSymbols seqFetchSymbols
    rw [if_neg (by simp), if_neg (by simp)]
  | true =>
    unfold threadFetchSymbols seqFetchSymbols resolveSymbols
    rw [if_pos rfl, if_pos rfl]
    refine resolveFromResults_perm (permuteBy_perm ?_)
    rw [List.length_map]
    exact hres

/-- Claim C5: for every input symbol list and deterministic
resolver/fetcher environment, the sequential mode and the concurrent mode
(under any completion orders of the two future rounds) produce Result
Collections containing the same multiset of symbols; the order of the
records may differ. -/
theorem claim_C5 (env : Env) (symbols : List String) (fz pnfo : Bool)
    (resOrder fetchOrder : List Nat)
    (hres : resOrder.Perm (List.range symbols.length))
    (hfetch : fetchOrder.Perm
      (List.range (threadFetchSymbols env symbols fz resOrder).length)) :
    (∀ g, download_summary_pages_without_threads env symbols fz pnfo =
        .ok (some g) →
      ∃ g2, download_summary_pages_with_threads env symbols fz pnfo resOrder
          fetchOrder = .ok (some g2) ∧ g.symbols.Perm g2.symbols) ∧
    (∀ g2, download_summary_pages_with_threads env symbols fz pnfo resOrder
        fetchOrder = .ok (some g2) →
      ∃ g, download_summary_pages_without_threads env symbols fz pnfo =
        .ok (some g) ∧ g.symbols.Perm g2.symbols) := by
  have hsyms : (threadFetchSymbols env symbols fz resOrder).Perm
      (seqFetchSymbols env symbols fz) := threadFetchSymbols_perm hres
  have hfut : (threadFutures env symbols fz pnfo resOrder).Perm
      (seqFutures env symbols fz pnfo) := hsyms.map _
  have hlen3 : (threadFutures env symbols fz pnfo resOrder).length =
      (threadFetchSymbols env symbols fz resOrder).length := by
    unfold threadFutures
    exact List.length_map _ _
  have hpfut : (permuteBy fetchOrder
      (threadFutures env symbols fz pnfo resOrder)).Perm
      (seqFutures env symbols fz pnfo) := by
    refine Trans.trans (permuteBy_perm ?_) hfut
    rw [hlen3]
    exact hfetch
  constructor
  · intro g hg
    obtain ⟨hc, hlen⟩ := download_without_ok_some_iff.mp hg
    obtain ⟨g2, hc2, hperm⟩ := collectFrom_perm hpfut.symm hc
    refine ⟨g2, download_with_ok_some_iff.mpr ⟨hc2, ?_⟩, ?_⟩
    · unfold SummaryPageGroup.length at hlen ⊢
      rw [← hperm.length_eq]
      exact hlen
    · unfold SummaryPageGroup.symbols
      exact hperm.map _
  · intro g2 hg2
    obtain ⟨hc2, hlen2⟩ := download_with_ok_some_iff.mp hg2
    obtain ⟨g, hc, hperm⟩ := collectFrom_perm hpfut hc2
    refine ⟨g, download_without_ok_some_iff.mpr ⟨hc, ?_⟩, ?_⟩
    · unfold SummaryPageGroup.length at hlen2 ⊢
      rw [← hperm.length_eq]
      exact hlen2
    · unfold SummaryPageGroup.symbols
      exact (hperm.map _).symm

/-- Witness for C5 at a concrete input: a two-symbol batch in reversed
completion order yields a collection whose symbols are a permutation of the
sequential result's symbols. -/
theorem claim_C5_witness :
    ([1, 0] : List Nat).Perm
      (List.range (["GOOG", "AAPL"] : List String).length) ∧
    ∃ g2, download_summary_pages_with_threads envUp ["GOOG", "AAPL"] true true
        [1, 0] [1, 0] = .ok (some g2) ∧
      (SummaryPageGroup.mk [pageGOOG, pageAAPL]).symbols.Perm g2.symbols := by
  refine ⟨by decide, ?_⟩
  exact (claim_C5 envUp ["GOOG", "AAPL"] true true [1, 0] [1, 0] (by decide)
    (by decide)).1 ⟨[pageGOOG, pageAAPL]⟩ rfl

theorem rowIndex_dict (p : SummaryPage) :
    rowIndex (SummaryPage.dict p) = p.symbol := rfl

/-- Claim C8: for every non-empty Result Collection the tabular projection is
present and has one row per Record (its indices are the collection's symbols,
as a multiset), the rows are sorted by symbol in ascending order, and no row
has a "quote" column. -/
theorem claim_C8 (g : SummaryPageGroup) (h : g.pages ≠ []) :
    ∃ rows, g.dataframe = some rows ∧
      (rows.map Prod.fst).Perm g.symbols ∧
      List.Sorted (fun a b : String => a ≤ b) (rows.map Prod.fst) ∧
      (∀ row ∈ rows, "quote" ∉ row.2.map Prod.fst) ∧
      rows.length = g.pages.length := by
  have hne : (g.pages.map SummaryPage.dict).isEmpty = false := by
    cases hp : g.pages with
    | nil => exact absurd hp h
    | cons a l => simp [hp]
  refine ⟨pySort Prod.fst ((g.pages.map SummaryPage.dict).map (fun row =>
      (rowIndex row,
        (row.filter (fun kv => kv.1 != "symbol")).filter
          (fun kv => kv.1 != "quote")))), ?_, ?_, ?_, ?_, ?_⟩
  · simp only [SummaryPageGroup.dataframe, hne, Bool.false_eq_true, if_false]
  · have h1 := (pySort_perm Prod.fst ((g.pages.map SummaryPage.dict).map
      (fun row => (rowIndex row,
        (row.filter (fun kv => kv.1 != "symbol")).filter
          (fun kv => kv.1 != "quote"))))).map Prod.fst
    have h2 : (((g.pages.map SummaryPage.dict).map (fun row =>
        (rowIndex row,
          (row.filter (fun kv => kv.1 != "symbol")).filter
            (fun kv => kv.1 != "quote")))).map Prod.fst) = g.symbols := by
      simp only [List.map_map, SummaryPageGroup.symbols]
      refine List.map_congr_left ?_
      intro p _
      simp [Function.comp, rowIndex_dict]
    rw [h2] at h1
    exact h1
  · have hs := pySort_sorted Prod.fst ((g.pages.map SummaryPage.dict).map
      (fun row => (rowIndex row,
        (row.filter (fun kv => kv.1 != "symbol")).filter
          (fun kv => kv.1 != "quote"))))
    refine List.pairwise_map.mpr ?_
    exact hs.imp (fun hab => (strLe_iff _ _).mp hab)
  · intro row hrow
    have hrow2 := (pySort_perm Prod.fst _).mem_iff.mp hrow
    obtain ⟨drow, _, rfl⟩ := List.mem_map.mp hrow2
    intro hq
    obtain ⟨kv, hkv, hfst⟩ := List.mem_map.mp hq
    have := List.of_mem_filter hkv
    rw [hfst] at this
    simp at this
  · rw [(pySort_perm Prod.fst _).length_eq]
    simp

/-- Witness for C8 at a concrete collection holding records with symbols B
and A: the projection is present with the stated shape, and concretely its
row order is A then B with no quote column. -/
theorem claim_C8_witness :
    (∃ rows, groupBA.dataframe = some rows ∧
      (rows.map Prod.fst).Perm groupBA.symbols ∧
      List.Sorted (fun a b : String => a ≤ b) (rows.map Prod.fst) ∧
      (∀ row ∈ rows, "quote" ∉ row.2.map Prod.fst) ∧
      rows.length = groupBA.pages.length) ∧
    Option.map (fun rows => rows.map Prod.fst) groupBA.dataframe =
      some ["A", "B"] :=
  ⟨claim_C8 groupBA (by simp [groupBA]), by decide⟩

end Yfs
